import Mathlib

/-!
# Verification of the TOC core of `epub-builder` (`src/toc.rs`)

This file is a shallow embedding, in Lean 4, of the table-of-contents data
model and algorithms of the `epub-builder` Rust crate (`src/toc.rs` together
with the string helpers of `src/common.rs` it uses), and proofs of the
specification claims about them.

Modelling conventions:
* Rust `i32` levels are modelled as `Int`, and the `u32` play-order offset as
  `Nat` (arithmetic overflow is out of scope of the claims; all quantities
  stay far below the machine bounds for any realizable tree).
* Rust `String` is modelled as Lean `String`; the third-party `html_escape`
  crate functions used by the renderers (`encode_text`,
  `encode_double_quoted_attribute`) are embedded by their documented
  character-by-character behaviour (escaping `& < >`, resp. `& < > "`).
* In-place mutation (`&mut self`) is modelled by explicit state passing:
  each mutating Rust method becomes a Lean function returning the new value.
-/

namespace EpubBuilder

/-! ## String helpers

`html_escape::encode_text` escapes the three text-context special characters
`&`, `<`, `>`. -/

/-- One character of `html_escape::encode_text`. -/
def encodeTextChar (c : Char) : String :=
  if c = '&' then "&amp;"
  else if c = '<' then "&lt;"
  else if c = '>' then "&gt;"
  else String.singleton c

/-- `html_escape::encode_text`: HTML-escape a string for text context. -/
def encode_text (s : String) : String :=
  String.join (s.data.map encodeTextChar)

/-- One character of `html_escape::encode_double_quoted_attribute`. -/
def encodeAttrChar (c : Char) : String :=
  if c = '&' then "&amp;"
  else if c = '<' then "&lt;"
  else if c = '>' then "&gt;"
  else if c = '"' then "&quot;"
  else String.singleton c

/-- `html_escape::encode_double_quoted_attribute`: escape a string for use
inside a double-quoted XML/HTML attribute value. -/
def encode_double_quoted_attribute (s : String) : String :=
  String.join (s.data.map encodeAttrChar)

/-- Rust `char::is_whitespace`: the Unicode `White_Space` property. -/
def rustIsWhitespace (c : Char) : Bool :=
  let n := c.toNat
  (9 ≤ n && n ≤ 13) || n = 32 || n = 0x85 || n = 0xA0 || n = 0x1680 ||
  (0x2000 ≤ n && n ≤ 0x200A) || n = 0x2028 || n = 0x2029 || n = 0x202F ||
  n = 0x205F || n = 0x3000

/-- Rust `str::trim`: remove leading and trailing whitespace. -/
def rustTrim (s : String) : String :=
  String.mk (((s.data.dropWhile rustIsWhitespace).reverse.dropWhile
    rustIsWhitespace).reverse)

/-- Split a character list at every newline character (the pieces do not
contain the `'\n'` separators); the analogue of `str::split('\n')`. -/
def splitNl : List Char → List (List Char)
  | [] => [[]]
  | c :: rest =>
      let parts := splitNl rest
      if c = '\n' then [] :: parts
      else
        match parts with
        | [] => [[c]]
        | p :: ps => (c :: p) :: ps

/-- Strip one trailing carriage return, as Rust `str::lines` does for `\r\n`
line terminators. -/
def stripCR (line : List Char) : List Char :=
  match line.getLast? with
  | some c => if c = '\r' then line.dropLast else line
  | none => line

/-- Rust `str::lines`: split at `\n` (or `\r\n`) terminators; a final line
without terminator is kept as is, and a trailing terminator produces no empty
final line. -/
def rustLines (s : String) : List String :=
  let parts := splitNl s.data
  let front := (parts.dropLast.map stripCR).map String.mk
  match parts.getLast? with
  | some [] => front
  | some last => front ++ [String.mk last]
  | none => front

/-- The padding produced by `format!("{:>spaces$}", " ")`: a run of spaces of
length `max spaces 1` (the padded text `" "` itself has length 1). -/
def padSpaces (spaces : Nat) : String :=
  String.mk (List.replicate (max spaces 1) ' ')

/-- `common::indent`: prefix every non-empty line of `s` with `2 * level`
spaces, leaving blank lines untouched. -/
def indent (s : String) (level : Nat) : String :=
  String.intercalate "\n"
    ((rustLines s).map (fun line =>
      if line.isEmpty then line else padSpaces (level * 2) ++ line))

/-- Modelled from the spec: `common::encode_html` is called by `toc.rs` (and
`epub.rs`) but its definition is missing from the provided sources; only
`escape_quote` and `indent` appear in `src/common.rs`. Spec §4.4 specifies it:
"`encode_html(text, enabled) -> text`: if `enabled`, HTML/XML-escape the
special characters; else return the text unchanged." The escaping used for
text context is the same `html_escape::encode_text` escaping used elsewhere
in the crate. -/
def encode_html (s : String) (enabled : Bool) : String :=
  if enabled then encode_text s else s

/-! ## Data model (`TocElement`, `Toc`) -/

/-- `TocElement` (src/toc.rs): an element of the table of contents, with a
nesting `level`, a link `url`, a `title`, an optional markup-free
`raw_title`, and an ordered list of `children`. -/
inductive TocElement : Type where
  | mk (level : Int) (url : String) (title : String)
       (raw_title : Option String) (children : List TocElement) : TocElement

namespace TocElement

/-- Field accessor: `level`. -/
def level : TocElement → Int
  | .mk l _ _ _ _ => l

/-- Field accessor: `url`. -/
def url : TocElement → String
  | .mk _ u _ _ _ => u

/-- Field accessor: `title`. -/
def title : TocElement → String
  | .mk _ _ t _ _ => t

/-- Field accessor: `raw_title`. -/
def raw_title : TocElement → Option String
  | .mk _ _ _ r _ => r

/-- Field accessor: `children`. -/
def children : TocElement → List TocElement
  | .mk _ _ _ _ ch => ch

/-- `TocElement::new`: level 1, no raw title, no children. -/
def new (u t : String) : TocElement :=
  .mk 1 u t none []

/-- The builder method `TocElement::level` (sets the level). -/
def setLevel (e : TocElement) (l : Int) : TocElement :=
  .mk l e.url e.title e.raw_title e.children

/-- The builder method `TocElement::raw_title` (sets the raw title). -/
def setRawTitle (e : TocElement) (r : String) : TocElement :=
  .mk e.level e.url e.title (some r) e.children

mutual

/-- `TocElement::level_up`: set `self.level = level` and recurse into every
child whose level is not already greater than the new level. -/
def level_up : TocElement → Int → TocElement
  | .mk _ u t r ch, level => .mk level u t r (levelUpChildren ch level)

/-- The `for child in &mut self.children` loop body of `level_up`: a child
with `child.level <= self.level` (the new level) is recursively lifted to
`level + 1`; other children are left untouched. -/
def levelUpChildren : List TocElement → Int → List TocElement
  | [], _ => []
  | c :: cs, level =>
      (if c.level ≤ level then c.level_up (level + 1) else c) ::
        levelUpChildren cs level

end

/-- `TocElement::child`: push `c` onto `self.children`, after lifting its
levels with `level_up (self.level + 1)` when `c.level <= self.level`. -/
def child (self c : TocElement) : TocElement :=
  match self with
  | .mk l u t r ch =>
      .mk l u t r (ch ++ [if c.level ≤ l then c.level_up (l + 1) else c])

mutual

/-- `TocElement::add`: if the last child exists and has level strictly less
than `element.level`, recursively add `element` to that last child;
otherwise push `element` onto `self.children`. -/
def add : TocElement → TocElement → TocElement
  | .mk l u t r ch, element => .mk l u t r (addToLast ch element)

/-- The `self.children.last_mut()` logic of `TocElement::add` (shared with
`Toc::add`, whose body is the same last-or-push logic on `self.elements`):
modify the last element of the list in place when `element.level` is
strictly greater than its level, else append `element`. -/
def addToLast : List TocElement → TocElement → List TocElement
  | [], element => [element]
  | [last], element =>
      if element.level > last.level then [last.add element] else [last, element]
  | c :: c2 :: cs, element => c :: addToLast (c2 :: cs) element

end

mutual

/-- `TocElement::render_epub`: render as a `navPoint` block for `toc.ncx`,
threading a running play-order counter. Returns the updated counter and the
markup. The title is the `raw_title` verbatim when present, else the
`encode_text`-escaped `title`; either way the final text is trimmed. -/
def render_epub : TocElement → Nat → Bool → Nat × String
  | .mk _ u t r ch, offset, escape_html =>
      let offset := offset + 1
      let id := offset
      let res :=
        if ch.isEmpty then (offset, "")
        else
          let res := renderEpubChildren ch offset escape_html
          (res.fst, "\n" ++ indent (String.intercalate "\n" res.snd) 1)
      let title : String :=
        match r with
        | some raw => raw
        | none => encode_text t
      (res.fst,
        "<navPoint playOrder=\"" ++
          encode_double_quoted_attribute (toString id) ++
          "\" id=\"navPoint-" ++
          encode_double_quoted_attribute (toString id) ++
          "\">\n  <navLabel>\n   <text>" ++ rustTrim title ++
          "</text>\n  </navLabel>\n  <content src=\"" ++
          encode_double_quoted_attribute u ++ "\"/>" ++ res.snd ++
          "\n</navPoint>")

/-- The child loop of `TocElement::render_epub` (also the element loop of
`Toc::render_epub`): render each element in order, threading the counter,
and collect the markup fragments. -/
def renderEpubChildren : List TocElement → Nat → Bool → Nat × List String
  | [], offset, _ => (offset, [])
  | c :: cs, offset, escape_html =>
      let res := c.render_epub offset escape_html
      let rest := renderEpubChildren cs res.fst escape_html
      (rest.fst, res.snd :: rest.snd)

end

mutual

/-- `TocElement::render`: render as an HTML list item. An empty title
produces the empty fragment; a node with children nests an `<ol>`/`<ul>`
block inside its `<li>`. -/
def render : TocElement → Bool → Bool → String
  | .mk _ u t _ ch, numbered, escape_html =>
      if t.isEmpty then ""
      else if ch.isEmpty then
        "<li><a href=\"" ++ encode_double_quoted_attribute u ++ "\">" ++
          encode_html t escape_html ++ "</a></li>"
      else
        let output := renderChildren ch numbered escape_html
        let oul := if numbered then "ol" else "ul"
        let childrenStr :=
          "<" ++ oul ++ ">\n" ++
            indent (String.intercalate "\n" output) 1 ++ "\n</" ++ oul ++ ">"
        "<li>\n  <a href=\"" ++ encode_double_quoted_attribute u ++ "\">" ++
          encode_html t escape_html ++ "</a>\n" ++ indent childrenStr 1 ++
          "\n</li>"

/-- The child loop of `TocElement::render` (also the element loop of
`Toc::render`). -/
def renderChildren : List TocElement → Bool → Bool → List String
  | [], _, _ => []
  | c :: cs, numbered, escape_html =>
      c.render numbered escape_html :: renderChildren cs numbered escape_html

end

end TocElement

/-- `Toc` (src/toc.rs): an ordered sequence of top-level `TocElement`s. -/
structure Toc : Type where
  elements : List TocElement

namespace Toc

/-- `Toc::new`: the empty table of contents. -/
def new : Toc := ⟨[]⟩

/-- `Toc::is_empty`: true when the toc has zero *or one* element. -/
def is_empty (t : Toc) : Bool :=
  t.elements.length ≤ 1

/-- `Toc::add`: the same last-or-push logic as `TocElement::add`, applied to
the top-level `elements` sequence. -/
def add (t : Toc) (element : TocElement) : Toc :=
  ⟨TocElement.addToLast t.elements element⟩

/-- `Toc::render_epub`: render every top-level element with a single counter
starting at 0, join with newlines, and indent the whole block twice. -/
def render_epub (t : Toc) (escape_html : Bool) : String :=
  let res := TocElement.renderEpubChildren t.elements 0 escape_html
  indent (String.intercalate "\n" res.snd) 2

/-- `Toc::render`: render every top-level element, join with newlines, wrap
in an `<ol>`/`<ul>` element per `numbered`, and indent the block twice. -/
def render (t : Toc) (numbered escape_html : Bool) : String :=
  let output := TocElement.renderChildren t.elements numbered escape_html
  let oul := if numbered then "ol" else "ul"
  indent
    ("<" ++ oul ++ ">\n" ++ indent (String.intercalate "\n" output) 1 ++
      "\n</" ++ oul ++ ">") 2

end Toc

/-! ## Specification-side definitions

The following definitions do not come from `toc.rs`; they are the measures,
invariants and frame descriptions the claims are stated with. -/

namespace TocElement

mutual

/-- Total number of nodes of a subtree (the node itself plus all of its
descendants). -/
def size : TocElement → Nat
  | .mk _ _ _ _ ch => 1 + sizeList ch

/-- Total number of nodes of a forest. -/
def sizeList : List TocElement → Nat
  | [] => 0
  | c :: cs => size c + sizeList cs

end

mutual

/-- The play-order ids assigned by `render_epub` when called with input
counter `offset`: the node itself receives `offset + 1` (it is numbered
before its children), then the children are numbered left to right, each
starting from the counter its left siblings finished at (`render_epub`
threads that counter as the first component of its result, which equals the
input counter plus the subtree size, see `render_epub_fst`). -/
def epubIds : TocElement → Nat → List Nat
  | .mk _ _ _ _ ch, offset => (offset + 1) :: epubIdsList ch (offset + 1)

/-- The ids assigned to a forest rendered left to right starting at counter
`offset`. -/
def epubIdsList : List TocElement → Nat → List Nat
  | [], _ => []
  | c :: cs, offset => epubIds c offset ++ epubIdsList cs (offset + size c)

end

mutual

/-- The parent-child level invariant: every node's children have level
strictly greater than the node's own level, recursively. -/
def wellLeveled : TocElement → Bool
  | .mk l _ _ _ ch => wellLeveledList l ch

/-- A forest sits well below a parent of level `l`: every root of the forest
has level strictly greater than `l` and is itself well levelled. -/
def wellLeveledList : Int → List TocElement → Bool
  | _, [] => true
  | l, c :: cs => (decide (l < c.level) && wellLeveled c) && wellLeveledList l cs

end

mutual

/-- Frame description of the insertion: descend `k` steps along the
rightmost spine of the tree and append `e`, unchanged, at the end of the
children list reached; every other node and every field of every existing
node is kept as is. -/
def appendAtSpine : Nat → TocElement → TocElement → TocElement
  | 0, .mk l u t r ch, e => .mk l u t r (ch ++ [e])
  | k + 1, .mk l u t r ch, e => .mk l u t r (appendAtSpineLastChild k ch e)

/-- Replace the last element `x` of the list with `appendAtSpine k x e`;
an empty list is returned unchanged. -/
def appendAtSpineLastChild : Nat → List TocElement → TocElement → List TocElement
  | _, [], _ => []
  | k, [x], e => [appendAtSpine k x e]
  | k, x :: y :: xs, e => x :: appendAtSpineLastChild k (y :: xs) e

end

/-- The element `child` actually attaches: the lifted child when the level
was at or below the parent's, the untouched child otherwise. -/
def attachedChild (p c : TocElement) : TocElement :=
  if c.level ≤ p.level then c.level_up (p.level + 1) else c

/-- Frame description at the level of a sibling list: `k = 0` appends `e` at
the end of the list itself, `k + 1` descends into the last element of the
list and appends `k` steps further down its rightmost spine. -/
def appendAtSpineList : Nat → List TocElement → TocElement → List TocElement
  | 0, ch, e => ch ++ [e]
  | k + 1, ch, e => appendAtSpineLastChild k ch e

mutual

/-- The HTML renderer with the title transformer abstracted out: everywhere
`render` emits `encode_html title escape_html`, `renderWith` emits `f title`.
The href is escaped with `encode_double_quoted_attribute`, unconditionally:
no part of this definition other than `f` can depend on the escaping flag. -/
def renderWith : TocElement → Bool → (String → String) → String
  | .mk _ u t _ ch, numbered, f =>
      if t.isEmpty then ""
      else if ch.isEmpty then
        "<li><a href=\"" ++ encode_double_quoted_attribute u ++ "\">" ++
          f t ++ "</a></li>"
      else
        let output := renderWithChildren ch numbered f
        let oul := if numbered then "ol" else "ul"
        let childrenStr :=
          "<" ++ oul ++ ">\n" ++
            indent (String.intercalate "\n" output) 1 ++ "\n</" ++ oul ++ ">"
        "<li>\n  <a href=\"" ++ encode_double_quoted_attribute u ++ "\">" ++
          f t ++ "</a>\n" ++ indent childrenStr 1 ++ "\n</li>"

/-- The child loop of `renderWith`. -/
def renderWithChildren : List TocElement → Bool → (String → String) → List String
  | [], _, _ => []
  | c :: cs, numbered, f =>
      renderWith c numbered f :: renderWithChildren cs numbered f

end

end TocElement

/-- The parent-child level invariant for a whole `Toc`: every top-level
element is well levelled (the top-level elements themselves are under no
level constraint, having no parent). -/
def Toc.wellLeveled (t : Toc) : Bool :=
  t.elements.all TocElement.wellLeveled

/-! ## Helper lemmas -/

namespace TocElement

mutual

/-- The counter returned by `render_epub` is its input counter plus the
number of nodes of the rendered subtree. -/
theorem render_epub_fst : ∀ (e : TocElement) (offset : Nat) (esc : Bool),
    (e.render_epub offset esc).fst = offset + e.size
  | .mk l u t r ch, offset, esc => by
    cases ch with
    | nil => simp [render_epub, size, sizeList]
    | cons c cs =>
      have h := renderEpubChildren_fst (c :: cs) (offset + 1) esc
      simp only [render_epub, List.isEmpty_cons, Bool.false_eq_true,
        if_false, size]
      omega

/-- The counter returned by the child loop of `render_epub` is its input
counter plus the number of nodes of the rendered forest. -/
theorem renderEpubChildren_fst : ∀ (l : List TocElement) (offset : Nat)
    (esc : Bool), (renderEpubChildren l offset esc).fst = offset + sizeList l
  | [], offset, esc => by simp [renderEpubChildren, sizeList]
  | c :: cs, offset, esc => by
    have h1 := render_epub_fst c offset esc
    simp only [renderEpubChildren, sizeList]
    rw [h1]
    have h2 := renderEpubChildren_fst cs (offset + c.size) esc
    rw [h2]
    omega

end

mutual

/-- The ids assigned to a subtree entered at counter `offset` are exactly
the `size` consecutive integers starting at `offset + 1`. -/
theorem epubIds_eq_range' : ∀ (e : TocElement) (offset : Nat),
    epubIds e offset = List.range' (offset + 1) e.size
  | .mk l u t r ch, offset => by
    have h := epubIdsList_eq_range' ch (offset + 1)
    simp only [epubIds, size, h]
    rw [Nat.add_comm 1 (sizeList ch), List.range'_succ]

/-- The ids assigned to a forest entered at counter `offset` are exactly the
`sizeList` consecutive integers starting at `offset + 1`. -/
theorem epubIdsList_eq_range' : ∀ (l : List TocElement) (offset : Nat),
    epubIdsList l offset = List.range' (offset + 1) (sizeList l)
  | [], offset => by simp [epubIdsList, sizeList]
  | c :: cs, offset => by
    have h1 := epubIds_eq_range' c offset
    have h2 := epubIdsList_eq_range' cs (offset + c.size)
    have h3 := List.range'_append (offset + 1) c.size (sizeList cs) 1
    simp only [epubIdsList, sizeList, h1, h2]
    rw [show offset + c.size + 1 = offset + 1 + 1 * c.size by ring, h3,
      Nat.add_comm (sizeList cs) c.size]

end

/-- `level_up` sets the level of the node it is applied to. -/
theorem level_up_level : ∀ (e : TocElement) (L : Int), (e.level_up L).level = L
  | .mk _ _ _ _ _, _ => rfl

/-- `level_up` rewrites the children list pointwise: a child at or below the
new level is recursively lifted to `L + 1`, any other child is untouched. -/
theorem levelUpChildren_eq_map : ∀ (ch : List TocElement) (L : Int),
    levelUpChildren ch L =
      ch.map (fun k => if k.level ≤ L then k.level_up (L + 1) else k)
  | [], _ => rfl
  | c :: cs, L => by
    simp only [levelUpChildren, List.map_cons, levelUpChildren_eq_map cs L]

/-- `TocElement::add` never changes the level of the node it is called on. -/
theorem add_level : ∀ (x e : TocElement), (x.add e).level = x.level
  | .mk _ _ _ _ _, _ => rfl

/-- Unfolding of `TocElement::child`. -/
theorem child_eq : ∀ (p c : TocElement),
    p.child c = TocElement.mk p.level p.url p.title p.raw_title
      (p.children ++ [if c.level ≤ p.level then c.level_up (p.level + 1) else c])
  | .mk _ _ _ _ _, _ => rfl

/-- Membership characterization of `wellLeveledList`. -/
theorem wellLeveledList_iff : ∀ (L : Int) (ch : List TocElement),
    wellLeveledList L ch = true ↔
      ∀ c ∈ ch, L < c.level ∧ wellLeveled c = true
  | L, [] => by simp [wellLeveledList]
  | L, c :: cs => by
    simp [wellLeveledList, wellLeveledList_iff L cs, and_assoc]

mutual

/-- `level_up` preserves the parent-child level invariant. -/
theorem wellLeveled_level_up : ∀ (e : TocElement) (L : Int),
    wellLeveled e = true → wellLeveled (e.level_up L) = true
  | .mk l u t r ch, L, h => by
    have hm : ∀ c ∈ ch, wellLeveled c = true := by
      intro c hc
      exact ((wellLeveledList_iff l ch).mp h c hc).2
    exact wellLeveledList_levelUpChildren ch L hm

/-- A forest all of whose roots satisfy the invariant is, after
`levelUpChildren _ L`, well levelled below a parent of level `L`. -/
theorem wellLeveledList_levelUpChildren : ∀ (ch : List TocElement) (L : Int),
    (∀ c ∈ ch, wellLeveled c = true) →
    wellLeveledList L (levelUpChildren ch L) = true
  | [], _, _ => rfl
  | c :: cs, L, h => by
    have hc := h c (List.mem_cons_self c cs)
    have hcs := wellLeveledList_levelUpChildren cs L
      (fun x hx => h x (List.mem_cons_of_mem c hx))
    by_cases hL : c.level ≤ L
    · have h1 := wellLeveled_level_up c (L + 1) hc
      have h2 := level_up_level c (L + 1)
      simp only [levelUpChildren, hL, if_true, wellLeveledList, h1, hcs,
        Bool.and_true, Bool.and_eq_true, decide_eq_true_eq, h2]
      omega
    · simp only [levelUpChildren, hL, if_false, wellLeveledList, hc, hcs,
        Bool.and_true, Bool.and_eq_true, decide_eq_true_eq]
      omega

end

/-- The attached child's level is strictly greater than the parent's, and
the attached child satisfies the invariant when `c` does. -/
theorem attachedChild_level (p c : TocElement) (hc : wellLeveled c = true) :
    p.level < (attachedChild p c).level ∧
    wellLeveled (attachedChild p c) = true := by
  rw [attachedChild]
  by_cases hL : c.level ≤ p.level
  · rw [if_pos hL]
    refine ⟨?_, wellLeveled_level_up c (p.level + 1) hc⟩
    rw [level_up_level]
    omega
  · rw [if_neg hL]
    exact ⟨by omega, hc⟩

/-- `child` preserves the invariant, and the node it attaches ends up with
level strictly greater than the parent's. -/
theorem wellLeveled_child (p c : TocElement)
    (hp : wellLeveled p = true) (hc : wellLeveled c = true) :
    wellLeveled (p.child c) = true ∧
    (p.child c).children = p.children ++ [attachedChild p c] ∧
    p.level < (attachedChild p c).level ∧
    (p.child c).level = p.level := by
  have hatt := attachedChild_level p c hc
  obtain ⟨l, u, t, r, ch⟩ := p
  have hch : wellLeveledList l ch = true := hp
  have hstep : (TocElement.mk l u t r ch).child c =
      TocElement.mk l u t r (ch ++ [attachedChild (TocElement.mk l u t r ch) c]) := by
    rw [child_eq]
    rfl
  refine ⟨?_, by rw [hstep]; rfl, hatt.1, by rw [hstep]; rfl⟩
  rw [hstep]
  show wellLeveledList l (ch ++ [attachedChild (TocElement.mk l u t r ch) c]) = true
  rw [wellLeveledList_iff]
  intro x hx
  rcases List.mem_append.mp hx with hx | hx
  · exact (wellLeveledList_iff l ch).mp hch x hx
  · rw [List.mem_singleton] at hx
    subst hx
    exact ⟨hatt.1, hatt.2⟩

mutual

/-- Level-based insertion preserves the invariant, provided the inserted
element's level is strictly greater than the target node's level (which is
exactly the condition under which `add` is ever called recursively). -/
theorem wellLeveled_add : ∀ (x e : TocElement),
    wellLeveled x = true → wellLeveled e = true → x.level < e.level →
    wellLeveled (x.add e) = true
  | .mk l _ _ _ ch, e, hx, he, hlt =>
    wellLeveledList_addToLast ch e l hx he hlt

/-- Invariant preservation for the last-or-push helper, below a parent of
level `L` with `L < e.level`. -/
theorem wellLeveledList_addToLast : ∀ (ch : List TocElement) (e : TocElement)
    (L : Int), wellLeveledList L ch = true → wellLeveled e = true →
    L < e.level → wellLeveledList L (addToLast ch e) = true
  | [], e, L, _, he, hlt => by
    show wellLeveledList L [e] = true
    rw [wellLeveledList_iff]
    intro x hx
    rw [List.mem_singleton] at hx
    subst hx
    exact ⟨hlt, he⟩
  | [last], e, L, hch, he, hlt => by
    have hl := (wellLeveledList_iff L [last]).mp hch last (by simp)
    by_cases hcmp : e.level > last.level
    · have h1 := wellLeveled_add last e hl.2 he hcmp
      rw [show addToLast [last] e = [last.add e] by rw [addToLast, if_pos hcmp]]
      rw [wellLeveledList_iff]
      intro x hx
      rw [List.mem_singleton] at hx
      subst hx
      rw [add_level]
      exact ⟨hl.1, h1⟩
    · rw [show addToLast [last] e = [last, e] by rw [addToLast, if_neg hcmp]]
      rw [wellLeveledList_iff]
      intro x hx
      rcases List.mem_cons.mp hx with hx | hx
      · subst hx; exact hl
      · rw [List.mem_singleton] at hx
        subst hx
        exact ⟨hlt, he⟩
  | c :: c2 :: cs, e, L, hch, he, hlt => by
    have hc := (wellLeveledList_iff L (c :: c2 :: cs)).mp hch c (by simp)
    have hrest : wellLeveledList L (c2 :: cs) = true := by
      rw [wellLeveledList_iff]
      intro x hx
      exact (wellLeveledList_iff L (c :: c2 :: cs)).mp hch x
        (List.mem_cons_of_mem c hx)
    have h2 := wellLeveledList_addToLast (c2 :: cs) e L hrest he hlt
    show wellLeveledList L (c :: addToLast (c2 :: cs) e) = true
    rw [wellLeveledList_iff]
    intro x hx
    rcases List.mem_cons.mp hx with hx | hx
    · subst hx; exact hc
    · exact (wellLeveledList_iff L _).mp h2 x hx

end

/-- The last-or-push helper applied to a list of well-levelled trees (with
no constraint tying the roots to any parent) yields well-levelled trees. -/
theorem wellLeveled_addToLast_top : ∀ (ch : List TocElement) (e : TocElement),
    (∀ c ∈ ch, wellLeveled c = true) → wellLeveled e = true →
    ∀ c' ∈ addToLast ch e, wellLeveled c' = true := by
  intro ch
  induction ch with
  | nil =>
    intro e _ he c' hc'
    simp only [addToLast, List.mem_singleton] at hc'
    subst hc'; exact he
  | cons c cs ih =>
    intro e h he c' hc'
    cases cs with
    | nil =>
      by_cases hcmp : e.level > c.level
      · rw [show addToLast [c] e = [c.add e] by rw [addToLast, if_pos hcmp],
          List.mem_singleton] at hc'
        subst hc'
        exact wellLeveled_add c e (h c (by simp)) he hcmp
      · rw [show addToLast [c] e = [c, e] by rw [addToLast, if_neg hcmp]] at hc'
        rcases List.mem_cons.mp hc' with hc' | hc'
        · subst hc'; exact h c' (by simp)
        · rw [List.mem_singleton] at hc'
          subst hc'; exact he
    | cons c2 cs2 =>
      rw [show addToLast (c :: c2 :: cs2) e = c :: addToLast (c2 :: cs2) e
          from rfl] at hc'
      rcases List.mem_cons.mp hc' with hc' | hc'
      · subst hc'; exact h c' (by simp)
      · exact ih e (fun x hx => h x (List.mem_cons_of_mem c hx)) he c' hc'

mutual

/-- `render_epub` is entirely independent of the `escape_html` flag: the
flag is threaded through the recursion but never consulted. -/
theorem render_epub_escape_irrelevant : ∀ (e : TocElement) (offset : Nat)
    (a b : Bool), e.render_epub offset a = e.render_epub offset b
  | .mk _ _ _ _ ch, offset, a, b => by
    have h := renderEpubChildren_escape_irrelevant ch (offset + 1) a b
    simp only [render_epub, h]

/-- The child loop of `render_epub` is independent of the flag. -/
theorem renderEpubChildren_escape_irrelevant : ∀ (ls : List TocElement)
    (offset : Nat) (a b : Bool),
    renderEpubChildren ls offset a = renderEpubChildren ls offset b
  | [], _, _, _ => rfl
  | c :: cs, offset, a, b => by
    have h1 := render_epub_escape_irrelevant c offset a b
    have h2 := renderEpubChildren_escape_irrelevant cs
      (c.render_epub offset b).fst a b
    simp only [renderEpubChildren, h1, h2]

end

mutual

/-- The HTML renderer factors through `renderWith`: the `escape_html` flag
enters the output only through the title transformer
`fun s => encode_html s escape_html`; every other part of the output — in
particular every `href` attribute, escaped with
`encode_double_quoted_attribute` — is produced identically for both values
of the flag. -/
theorem render_eq_renderWith : ∀ (e : TocElement) (numbered esc : Bool),
    e.render numbered esc =
      renderWith e numbered (fun s => encode_html s esc)
  | .mk _ _ _ _ ch, numbered, esc => by
    have h := renderChildren_eq_renderWithChildren ch numbered esc
    simp only [render, renderWith, h]

/-- The child loop of the HTML renderer factors the same way. -/
theorem renderChildren_eq_renderWithChildren : ∀ (ls : List TocElement)
    (numbered esc : Bool),
    renderChildren ls numbered esc =
      renderWithChildren ls numbered (fun s => encode_html s esc)
  | [], _, _ => rfl
  | c :: cs, numbered, esc => by
    have h1 := render_eq_renderWith c numbered esc
    have h2 := renderChildren_eq_renderWithChildren cs numbered esc
    simp only [renderChildren, renderWithChildren, h1, h2]

end

/-- The shape of a rendered `navPoint`: whatever the node (empty title or
not, children or not) and whatever the flag, the fragment opens with the
play-order id `offset + 1` (in both attributes) and carries as text content
the trimmed `raw_title` when one is set, else the trimmed escaped `title`. -/
theorem render_epub_snd_shape : ∀ (e : TocElement) (offset : Nat) (esc : Bool),
    ∃ tail, (e.render_epub offset esc).snd =
      "<navPoint playOrder=\"" ++
        encode_double_quoted_attribute (toString (offset + 1)) ++
        "\" id=\"navPoint-" ++
        encode_double_quoted_attribute (toString (offset + 1)) ++
        "\">\n  <navLabel>\n   <text>" ++
        rustTrim (match e.raw_title with
          | some raw => raw
          | none => encode_text e.title) ++
        "</text>" ++ tail
  | .mk l u t r ch, offset, esc => by
    refine ⟨"\n  </navLabel>\n  <content src=\"" ++
      encode_double_quoted_attribute u ++ "\"/>" ++
      (if ch.isEmpty then ((offset + 1 : Nat), "")
        else
          let res := renderEpubChildren ch (offset + 1) esc
          (res.fst, "\n" ++ indent (String.intercalate "\n" res.snd) 1)).snd ++
      "\n</navPoint>", ?_⟩
    simp only [render_epub, raw_title, title]
    rw [show ("</text>\n  </navLabel>\n  <content src=\"" : String) =
      "</text>" ++ "\n  </navLabel>\n  <content src=\"" from rfl]
    simp only [String.append_assoc]

/-- `appendAtSpine` on a node acts on its children list via
`appendAtSpineList`. -/
theorem appendAtSpine_mk : ∀ (k : Nat) (l : Int) (u t : String)
    (r : Option String) (ch : List TocElement) (e : TocElement),
    appendAtSpine k (.mk l u t r ch) e = .mk l u t r (appendAtSpineList k ch e)
  | 0, _, _, _, _, _, _ => rfl
  | _ + 1, _, _, _, _, _, _ => rfl

mutual

/-- `TocElement::add` is a pure frame-preserving append: there is a depth
`k` on the rightmost spine such that the result is exactly the input tree
with `element` appended, unchanged, to the children list `k` levels down;
no existing node is modified in any field. -/
theorem add_eq_appendAtSpine : ∀ (x e : TocElement),
    ∃ k, x.add e = appendAtSpine k x e
  | .mk l u t r ch, e => by
    obtain ⟨k, hk⟩ := addToLast_eq_appendAtSpineList ch e
    exact ⟨k, by rw [appendAtSpine_mk]; show TocElement.mk l u t r _ = _; rw [hk]⟩

/-- The last-or-push helper is a pure frame-preserving append on a sibling
list. -/
theorem addToLast_eq_appendAtSpineList : ∀ (ch : List TocElement)
    (e : TocElement), ∃ k, addToLast ch e = appendAtSpineList k ch e
  | [], e => ⟨0, rfl⟩
  | [last], e => by
    by_cases hcmp : e.level > last.level
    · obtain ⟨k, hk⟩ := add_eq_appendAtSpine last e
      refine ⟨k + 1, ?_⟩
      rw [show addToLast [last] e = [last.add e] by rw [addToLast, if_pos hcmp],
        hk]
      rfl
    · refine ⟨0, ?_⟩
      rw [show addToLast [last] e = [last, e] by rw [addToLast, if_neg hcmp]]
      rfl
  | c :: c2 :: cs, e => by
    obtain ⟨k, hk⟩ := addToLast_eq_appendAtSpineList (c2 :: cs) e
    cases k with
    | zero => exact ⟨0, by rw [show addToLast (c :: c2 :: cs) e =
        c :: addToLast (c2 :: cs) e from rfl, hk]; rfl⟩
    | succ j => exact ⟨j + 1, by rw [show addToLast (c :: c2 :: cs) e =
        c :: addToLast (c2 :: cs) e from rfl, hk]; rfl⟩

end

end TocElement

/-- `Toc::add` is a pure frame-preserving append on the top-level sequence
or along the rightmost spine of its last element. -/
theorem Toc.add_eq_appendAtSpineList (t : Toc) (e : TocElement) :
    ∃ k, t.add e = Toc.mk (TocElement.appendAtSpineList k t.elements e) := by
  obtain ⟨k, hk⟩ := TocElement.addToLast_eq_appendAtSpineList t.elements e
  exact ⟨k, by rw [Toc.add, hk]⟩

/-- `Toc::add` preserves the invariant for the whole table of contents. -/
theorem Toc.add_wellLeveled (t : Toc) (e : TocElement)
    (ht : t.wellLeveled = true) (he : TocElement.wellLeveled e = true) :
    (t.add e).wellLeveled = true := by
  rw [Toc.wellLeveled, List.all_eq_true] at ht ⊢
  exact TocElement.wellLeveled_addToLast_top t.elements e ht he

set_option maxRecDepth 100000

/-! ## Reproduction of the crate's own unit tests

These anchor the embedding: each equality below is the exact expected string
of the corresponding `#[test]` in `src/toc.rs`, checked by kernel
evaluation of the embedded definitions. -/

/-- Reproduces the `toc_simple` unit test of src/toc.rs. -/
theorem rust_test_toc_simple :
    ((((((Toc.new.add ((TocElement.new "#1" "0.0.1").setLevel 3)).add
      ((TocElement.new "#2" "1").setLevel 1)).add
      ((TocElement.new "#3" "1.0.1").setLevel 3)).add
      ((TocElement.new "#4" "1.1").setLevel 2)).add
      (TocElement.new "#5" "2")).render false true) =
    "    <ul>\n      <li><a href=\"#1\">0.0.1</a></li>\n      <li>\n        <a href=\"#2\">1</a>\n        <ul>\n          <li><a href=\"#3\">1.0.1</a></li>\n          <li><a href=\"#4\">1.1</a></li>\n        </ul>\n      </li>\n      <li><a href=\"#5\">2</a></li>\n    </ul>" := by
  decide

/-- Reproduces the `toc_epub_simple` unit test of src/toc.rs. -/
theorem rust_test_toc_epub_simple :
    (((Toc.new.add (TocElement.new "#1" "1")).add
      (TocElement.new "#2" "2")).render_epub true) =
    "    <navPoint playOrder=\"1\" id=\"navPoint-1\">\n      <navLabel>\n       <text>1</text>\n      </navLabel>\n      <content src=\"#1\"/>\n    </navPoint>\n    <navPoint playOrder=\"2\" id=\"navPoint-2\">\n      <navLabel>\n       <text>2</text>\n      </navLabel>\n      <content src=\"#2\"/>\n    </navPoint>" := by
  decide

/-- Reproduces the `toc_epub_simple_sublevels` unit test of src/toc.rs. -/
theorem rust_test_toc_epub_simple_sublevels :
    (((((Toc.new.add (TocElement.new "#1" "1")).add
      ((TocElement.new "#1.1" "1.1").setLevel 2)).add
      (TocElement.new "#2" "2")).add
      ((TocElement.new "#2.1" "2.1").setLevel 2)).render_epub true) =
    "    <navPoint playOrder=\"1\" id=\"navPoint-1\">\n      <navLabel>\n       <text>1</text>\n      </navLabel>\n      <content src=\"#1\"/>\n      <navPoint playOrder=\"2\" id=\"navPoint-2\">\n        <navLabel>\n         <text>1.1</text>\n        </navLabel>\n        <content src=\"#1.1\"/>\n      </navPoint>\n    </navPoint>\n    <navPoint playOrder=\"3\" id=\"navPoint-3\">\n      <navLabel>\n       <text>2</text>\n      </navLabel>\n      <content src=\"#2\"/>\n      <navPoint playOrder=\"4\" id=\"navPoint-4\">\n        <navLabel>\n         <text>2.1</text>\n        </navLabel>\n        <content src=\"#2.1\"/>\n      </navPoint>\n    </navPoint>" := by
  decide

/-- Reproduces the `toc_epub_broken_sublevels` unit test of src/toc.rs. -/
theorem rust_test_toc_epub_broken_sublevels :
    ((((Toc.new.add ((TocElement.new "#1.1" "1.1").setLevel 2)).add
      (TocElement.new "#2" "2")).add
      ((TocElement.new "#2.1" "2.1").setLevel 2)).render_epub true) =
    "    <navPoint playOrder=\"1\" id=\"navPoint-1\">\n      <navLabel>\n       <text>1.1</text>\n      </navLabel>\n      <content src=\"#1.1\"/>\n    </navPoint>\n    <navPoint playOrder=\"2\" id=\"navPoint-2\">\n      <navLabel>\n       <text>2</text>\n      </navLabel>\n      <content src=\"#2\"/>\n      <navPoint playOrder=\"3\" id=\"navPoint-3\">\n        <navLabel>\n         <text>2.1</text>\n        </navLabel>\n        <content src=\"#2.1\"/>\n      </navPoint>\n    </navPoint>" := by
  decide

/-- Reproduces the `toc_epub_title_escaped` unit test of src/toc.rs. -/
theorem rust_test_toc_epub_title_escaped :
    ((Toc.new.add (TocElement.new "#1" "D&D")).render_epub true) =
    "    <navPoint playOrder=\"1\" id=\"navPoint-1\">\n      <navLabel>\n       <text>D&amp;D</text>\n      </navLabel>\n      <content src=\"#1\"/>\n    </navPoint>" := by
  decide

/-- Reproduces the `toc_epub_title_not_escaped` unit test of src/toc.rs. -/
theorem rust_test_toc_epub_title_not_escaped :
    ((Toc.new.add
      ((TocElement.new "#1" "<em>D&amp;D<em>").setRawTitle "D&amp;D")).render_epub
        false) =
    "    <navPoint playOrder=\"1\" id=\"navPoint-1\">\n      <navLabel>\n       <text>D&amp;D</text>\n      </navLabel>\n      <content src=\"#1\"/>\n    </navPoint>" := by
  decide

/-! ## The claims -/

/-- Claim C1: starting from an empty Toc, appending via Toc::add five
elements A, B, C, D, E with levels 3, 1, 3, 2, 1 (in that order, for all
titles and urls, in particular distinct ones) yields exactly the top-level
sequence [A, B, E] where A and E have no children and B's children are
exactly [C, D], in that order. -/
theorem claim_C1 (uA tA uB tB uC tC uD tD uE tE : String) :
    (((((Toc.new.add ((TocElement.new uA tA).setLevel 3)).add
        ((TocElement.new uB tB).setLevel 1)).add
        ((TocElement.new uC tC).setLevel 3)).add
        ((TocElement.new uD tD).setLevel 2)).add
        ((TocElement.new uE tE).setLevel 1)) =
      Toc.mk [TocElement.mk 3 uA tA none [],
        TocElement.mk 1 uB tB none
          [TocElement.mk 3 uC tC none [], TocElement.mk 2 uD tD none []],
        TocElement.mk 1 uE tE none []] :=
  rfl

/-- Claim C2: render_epub numbers navPoints by a pre-order depth-first
traversal with one running counter. Conjunct 1: every render_epub call
returns its input offset plus the node count of its subtree. Conjunct 2:
the ids assigned across a whole Toc (node id = counter value immediately
after its increment, children numbered after their parent from the same
counter, exactly as threaded by render_epub per conjuncts 1 and 3) are
exactly 1..N for N the total node count, strictly increasing in traversal
order. Conjunct 3: the rendered fragment of a node entered at counter
`offset` indeed carries id `offset + 1` in its playOrder attribute (head of
its `epubIds`). -/
theorem claim_C2 :
    (∀ (e : TocElement) (offset : Nat) (esc : Bool),
      (e.render_epub offset esc).fst = offset + e.size) ∧
    (∀ t : Toc, TocElement.epubIdsList t.elements 0 =
      List.range' 1 (TocElement.sizeList t.elements)) ∧
    (∀ (e : TocElement) (offset : Nat) (esc : Bool), ∃ tail,
      (e.render_epub offset esc).snd = "<navPoint playOrder=\"" ++
        encode_double_quoted_attribute (toString (offset + 1)) ++ tail) := by
  refine ⟨TocElement.render_epub_fst, ?_, ?_⟩
  · intro t
    simpa using TocElement.epubIdsList_eq_range' t.elements 0
  · intro e offset esc
    obtain ⟨tail, htail⟩ := TocElement.render_epub_snd_shape e offset esc
    exact ⟨"\" id=\"navPoint-" ++
      encode_double_quoted_attribute (toString (offset + 1)) ++
      "\">\n  <navLabel>\n   <text>" ++
      rustTrim (match e.raw_title with
        | some raw => raw
        | none => encode_text e.title) ++ "</text>" ++ tail,
      by rw [htail]; simp only [String.append_assoc]⟩

/-- Claim C3, counterexample: attach C (level 1, with one child G of level
3) to parent P of level 3 via TocElement::child. The claim predicts G's
level becomes Lg + (Lp + 1 - Lc) = 3 + 3 = 6, preserving the C-to-G level
difference of 2; the code instead renormalizes G to C's new level plus one,
i.e. 5, shrinking the difference to 1. -/
theorem claim_C3_counterexample :
    (((TocElement.mk 3 "p" "P" none []).child
      (TocElement.mk 1 "c" "C" none [TocElement.mk 3 "g" "G" none []])).children.map
      (fun x => (x.level, x.children.map TocElement.level)) = [(4, [5])]) ∧
    ([(4, [5])] : List (Int × List Int)) ≠ [(4, [3 + (3 + 1 - 1)])] := by
  exact ⟨rfl, by decide⟩

/-- Claim C3, amended: if Lc <= Lp then child sets C.level = Lp + 1 and
recursively renormalizes C's descendants to consecutive levels — each child
whose level is at or below its parent's new level is assigned the parent's
new level plus one, while a child whose level already exceeds its parent's
new level is left entirely untouched — so relative level differences are in
general not preserved; if Lc > Lp, no node's level changes (the child
subtree is attached as is). -/
theorem claim_C3_amended (p c : TocElement) :
    (c.level ≤ p.level →
      p.child c = TocElement.mk p.level p.url p.title p.raw_title
        (p.children ++ [c.level_up (p.level + 1)]) ∧
      (c.level_up (p.level + 1)).level = p.level + 1) ∧
    (p.level < c.level →
      p.child c = TocElement.mk p.level p.url p.title p.raw_title
        (p.children ++ [c])) ∧
    (∀ (ch : List TocElement) (L : Int),
      TocElement.levelUpChildren ch L =
        ch.map fun k => if k.level ≤ L then k.level_up (L + 1) else k) := by
  refine ⟨fun h => ⟨?_, TocElement.level_up_level c (p.level + 1)⟩,
    fun h => ?_, TocElement.levelUpChildren_eq_map⟩
  · rw [TocElement.child_eq, if_pos h]
  · rw [TocElement.child_eq, if_neg (by omega)]

/-- Witness for the amended claim C3: a concrete instantiation of both
branches. -/
theorem claim_C3_amended_witness :
    ((TocElement.mk 1 "c" "C" none []).level ≤
        (TocElement.mk 3 "p" "P" none []).level ∧
      (TocElement.mk 3 "p" "P" none []).child (TocElement.mk 1 "c" "C" none []) =
        TocElement.mk 3 "p" "P" none
          [(TocElement.mk 1 "c" "C" none []).level_up 4]) ∧
    ((TocElement.mk 3 "p" "P" none []).level <
        (TocElement.mk 9 "q" "Q" none []).level ∧
      (TocElement.mk 3 "p" "P" none []).child (TocElement.mk 9 "q" "Q" none []) =
        TocElement.mk 3 "p" "P" none [TocElement.mk 9 "q" "Q" none []]) :=
  ⟨⟨by decide,
    ((claim_C3_amended (TocElement.mk 3 "p" "P" none [])
      (TocElement.mk 1 "c" "C" none [])).1 (by decide)).1⟩,
   ⟨by decide,
    ((claim_C3_amended (TocElement.mk 3 "p" "P" none [])
      (TocElement.mk 9 "q" "Q" none [])).2.1 (by decide))⟩⟩

/-- Claim C4, counterexample: with escape_html = false and raw_title unset,
the claim says the title "&lt;b&gt;x&lt;/b&gt;" (spelled here escaped; the
actual input title is plain markup) is emitted unescaped; the code escapes
it anyway — render_epub never consults escape_html. -/
theorem claim_C4_counterexample :
    (((TocElement.mk 1 "#1" "<b>x</b>" none []).render_epub 0 false).snd =
      "<navPoint playOrder=\"1\" id=\"navPoint-1\">\n  <navLabel>\n   <text>&lt;b&gt;x&lt;/b&gt;</text>\n  </navLabel>\n  <content src=\"#1\"/>\n</navPoint>") ∧
    (((TocElement.mk 1 "#1" "<b>x</b>" none []).render_epub 0 false).snd ≠
      "<navPoint playOrder=\"1\" id=\"navPoint-1\">\n  <navLabel>\n   <text><b>x</b></text>\n  </navLabel>\n  <content src=\"#1\"/>\n</navPoint>") := by
  exact ⟨by decide, by decide⟩

/-- Claim C4, amended: in EPUB-nav (NCX) mode the emitted text content is
the node's raw_title (whitespace-trimmed) whenever raw_title is set; when
raw_title is not set it is the title, HTML-escaped unconditionally (and
trimmed) — for both values of escape_html, which render_epub ignores
entirely. -/
theorem claim_C4_amended (e : TocElement) (offset : Nat) (esc : Bool) :
    (∃ tail, (e.render_epub offset esc).snd =
      "<navPoint playOrder=\"" ++
        encode_double_quoted_attribute (toString (offset + 1)) ++
        "\" id=\"navPoint-" ++
        encode_double_quoted_attribute (toString (offset + 1)) ++
        "\">\n  <navLabel>\n   <text>" ++
        rustTrim (match e.raw_title with
          | some raw => raw
          | none => encode_text e.title) ++
        "</text>" ++ tail) ∧
    e.render_epub offset true = e.render_epub offset false :=
  ⟨TocElement.render_epub_snd_shape e offset esc,
   TocElement.render_epub_escape_irrelevant e offset true false⟩

/-- Claim C5: every attachment preserves the parent-child level constraint.
Conjunct 1: a fresh element satisfies the invariant. Conjunct 2: explicit
attachment with TocElement::child preserves the invariant, and the node as
attached (lifted when needed) has level strictly greater than the parent's.
Conjunct 3: level-based insertion into a node preserves the invariant under
its call precondition (the inserted element's level exceeds the node's,
which is exactly the guard under which add recurses). Conjunct 4: Toc::add
preserves the whole-Toc invariant for any well-levelled element. Conjunct
5: the empty Toc satisfies it. Hence any Toc built from empty purely by
these attachment operations satisfies the invariant everywhere. -/
theorem claim_C5 :
    (∀ u t : String, TocElement.wellLeveled (TocElement.new u t) = true) ∧
    (∀ p c : TocElement, TocElement.wellLeveled p = true →
      TocElement.wellLeveled c = true →
      TocElement.wellLeveled (p.child c) = true ∧
      (p.child c).children = p.children ++ [TocElement.attachedChild p c] ∧
      p.level < (TocElement.attachedChild p c).level) ∧
    (∀ x e : TocElement, TocElement.wellLeveled x = true →
      TocElement.wellLeveled e = true → x.level < e.level →
      TocElement.wellLeveled (x.add e) = true) ∧
    (∀ (t : Toc) (e : TocElement), t.wellLeveled = true →
      TocElement.wellLeveled e = true → (t.add e).wellLeveled = true) ∧
    Toc.new.wellLeveled = true := by
  refine ⟨fun u t => rfl, fun p c hp hc => ?_,
    TocElement.wellLeveled_add, Toc.add_wellLeveled, rfl⟩
  obtain ⟨h1, h2, h3, _⟩ := TocElement.wellLeveled_child p c hp hc
  exact ⟨h1, h2, h3⟩

/-- Witness for claim C5: concrete well-levelled inputs satisfying every
hypothesis, with the conclusions instantiated through the theorem. -/
theorem claim_C5_witness :
    (Toc.mk [TocElement.mk 1 "a" "A" none []]).wellLeveled = true ∧
    TocElement.wellLeveled (TocElement.mk 2 "b" "B" none []) = true ∧
    ((Toc.mk [TocElement.mk 1 "a" "A" none []]).add
      (TocElement.mk 2 "b" "B" none [])).wellLeveled = true ∧
    TocElement.wellLeveled
      ((TocElement.mk 1 "a" "A" none []).child
        (TocElement.mk 1 "c" "C" none [])) = true :=
  ⟨by decide, by decide,
   claim_C5.2.2.2.1 (Toc.mk [TocElement.mk 1 "a" "A" none []])
     (TocElement.mk 2 "b" "B" none []) (by decide) (by decide),
   (claim_C5.2.1 (TocElement.mk 1 "a" "A" none [])
     (TocElement.mk 1 "c" "C" none []) (by decide) (by decide)).1⟩

/-- Claim C6: a node with empty title renders in HTML mode as the empty
fragment (children included — nothing of the subtree is emitted), for both
values of numbered and escape_html; the same node is still rendered as a
normal navPoint by render_epub: it consumes its full subtree's worth of
play-order numbers and emits the standard navPoint fragment. -/
theorem claim_C6 (e : TocElement) (numbered esc : Bool) (offset : Nat)
    (h : e.title = "") :
    e.render numbered esc = "" ∧
    (e.render_epub offset esc).fst = offset + e.size ∧
    ∃ tail, (e.render_epub offset esc).snd =
      "<navPoint playOrder=\"" ++
        encode_double_quoted_attribute (toString (offset + 1)) ++
        "\" id=\"navPoint-" ++
        encode_double_quoted_attribute (toString (offset + 1)) ++
        "\">\n  <navLabel>\n   <text>" ++
        rustTrim (match e.raw_title with
          | some raw => raw
          | none => encode_text e.title) ++
        "</text>" ++ tail := by
  refine ⟨?_, TocElement.render_epub_fst e offset esc,
    TocElement.render_epub_snd_shape e offset esc⟩
  obtain ⟨l, u, t, r, ch⟩ := e
  have ht : t = "" := h
  subst ht
  have hemp : ("" : String).isEmpty = true := rfl
  simp [TocElement.render, hemp]

/-- Witness for claim C6: an empty-titled node that does have a child. -/
theorem claim_C6_witness :
    (TocElement.mk 1 "u" "" none [TocElement.mk 2 "v" "w" none []]).title =
      "" ∧
    (TocElement.mk 1 "u" "" none
      [TocElement.mk 2 "v" "w" none []]).render false true = "" ∧
    ((TocElement.mk 1 "u" "" none
      [TocElement.mk 2 "v" "w" none []]).render_epub 0 true).fst =
      0 + (TocElement.mk 1 "u" "" none [TocElement.mk 2 "v" "w" none []]).size :=
  ⟨rfl,
   (claim_C6 (TocElement.mk 1 "u" "" none [TocElement.mk 2 "v" "w" none []])
     false true 0 rfl).1,
   (claim_C6 (TocElement.mk 1 "u" "" none [TocElement.mk 2 "v" "w" none []])
     false true 0 rfl).2.1⟩

/-- Claim C7: attribute values are escaped unconditionally; the escape_html
flag never reaches them. Conjunct 1: render_epub output (ids, hrefs and all)
is literally identical for both flag values. Conjunct 2: likewise for a
whole Toc. Conjunct 3: the HTML renderer factors through renderWith, in
which the flag enters only via the title transformer applied to title text;
every href is emitted as encode_double_quoted_attribute of the url, by a
definition that does not receive the flag at all — so the attribute
portions of the output are identical for both flag values. -/
theorem claim_C7 :
    (∀ (e : TocElement) (offset : Nat),
      e.render_epub offset true = e.render_epub offset false) ∧
    (∀ t : Toc, t.render_epub true = t.render_epub false) ∧
    (∀ (e : TocElement) (numbered esc : Bool),
      e.render numbered esc =
        TocElement.renderWith e numbered (fun s => encode_html s esc)) := by
  refine ⟨fun e offset =>
    TocElement.render_epub_escape_irrelevant e offset true false,
    fun t => ?_, TocElement.render_eq_renderWith⟩
  rw [Toc.render_epub, Toc.render_epub,
    TocElement.renderEpubChildren_escape_irrelevant t.elements 0 true false]

/-- Claim C8: insertion and rendering are total over all inputs: every
operation of the embedded TOC core is a total Lean function over arbitrary
levels (Int, including zero and negative), titles, hrefs and append orders,
with no error state (no Option/Except anywhere in the model, mirroring the
absence of panics and Results in the source). Rendering the empty Toc
yields the empty-but-well-formed wrapper: the outer ol/ul element (chosen
by the numbered flag) containing no li items, at the fixed two-level
indentation, with a blank line where the items would go; the empty Toc's
NCX rendering is the empty string. -/
theorem claim_C8 (numbered escape_html : Bool) :
    Toc.new.render numbered escape_html =
      (if numbered then "    <ol>\n\n    </ol>" else "    <ul>\n\n    </ul>") ∧
    Toc.new.render_epub escape_html = "" := by
  cases numbered <;> cases escape_html <;> exact ⟨by decide, by decide⟩

/-- Claim C9: is_empty is true exactly for zero or one top-level elements,
false for two or more, and is insensitive to the elements themselves — in
particular to how many children they carry at any depth (mapping any
element transformation over the top-level list leaves it unchanged). -/
theorem claim_C9 (t : Toc) :
    (t.is_empty = true ↔
      t.elements.length = 0 ∨ t.elements.length = 1) ∧
    (t.is_empty = false ↔ 2 ≤ t.elements.length) ∧
    (∀ f : TocElement → TocElement,
      (Toc.mk (t.elements.map f)).is_empty = t.is_empty) := by
  refine ⟨?_, ?_, fun f => ?_⟩
  · rw [Toc.is_empty, decide_eq_true_eq]
    omega
  · rw [Toc.is_empty, decide_eq_false_iff_not, not_le]
    omega
  · rw [Toc.is_empty, Toc.is_empty]
    simp

/-- Claim C10: level-based insertion never rewrites any node. Conjunct 1:
Toc::add equals, for some depth k, the pure frame operation that walks k
steps down the rightmost spine (k = 0: the top-level sequence itself) and
appends the element — unchanged, field for field (cloning is modelled by
structural equality) — at the end of that children list, leaving every
existing node's fields (level included) untouched, as appendAtSpineList
does by construction. Conjunct 2: the same for TocElement::add. Level
renormalization happens only in child/level_up, which add never calls. -/
theorem claim_C10 :
    (∀ (t : Toc) (e : TocElement), ∃ k,
      t.add e = Toc.mk (TocElement.appendAtSpineList k t.elements e)) ∧
    (∀ x e : TocElement, ∃ k,
      x.add e = TocElement.appendAtSpine k x e) :=
  ⟨Toc.add_eq_appendAtSpineList, TocElement.add_eq_appendAtSpine⟩

end EpubBuilder
